import Mathlib

/-
Shallow embedding of the settings subsystem of this repository: the
SettingsManager class (definition registry, profile management, provider
interaction, backup, and the background update sweep) translated from the
source, together with proofs about its behaviour.  Collaborator pieces
whose files are not part of the source tree (SettingsProfile statics,
profile clearing, the deep-equality helper) are modelled from the spec and
marked as such on their doc comments.
-/

namespace FFZ

/-- Association-list lookup; the first binding wins, mirroring JS object and
Map access. -/
def assocGet {α β : Type} [DecidableEq α] : List (α × β) → α → Option β
  | [], _ => none
  | (k, v) :: rest, key => if k = key then some v else assocGet rest key

/-- Association-list update: replace the first binding of the key, or append
a new binding, mirroring JS object and Map assignment. -/
def assocSet {α β : Type} [DecidableEq α] : List (α × β) → α → β → List (α × β)
  | [], key, v => [(key, v)]
  | (k, w) :: rest, key, v =>
    if k = key then (k, v) :: rest else (k, w) :: assocSet rest key v

-- ===========================================================================
-- Setting definition registry (SettingsManager.add, source lines 650-693)
-- ===========================================================================

/-- A registered setting definition as stored in `SettingsManager.definitions`.
Only the dependency fields take part in the dependency bookkeeping; the other
definition attributes (default value, ui descriptor, change callback) play no
role in the registry's edge structure. -/
structure SettingDef where
  requires : List String
  required_by : List String
deriving DecidableEq, Repr

/-- An entry of the definitions map: either a real definition, or a bare
array placeholder created when a key is required before it is defined (the
source stores a plain array of requiring keys in that case). -/
inductive RegEntry
  | placeholder (required_by : List String)
  | defn (d : SettingDef)
deriving DecidableEq, Repr

/-- The `definitions` map of SettingsManager. -/
abbrev Registry := List (String × RegEntry)

/-- The required_by list carried by an optional registry entry: the bare
array of a placeholder, the required_by field of a definition, and the empty
list for a missing entry. -/
def regRB : Option RegEntry → List String
  | some (RegEntry.placeholder l) => l
  | some (RegEntry.defn d) => d.required_by
  | none => []

/-- The required_by edges currently associated with a key. -/
def requiredByOf (m : Registry) (k : String) : List String :=
  regRB (assocGet m k)

/-- One iteration of the requires loop of `add`: push `key` onto the entry
of required key `rk`, creating a placeholder `[key]` when `rk` has no entry
yet (source lines 665-673). -/
def pushRequiredBy (m : Registry) (rk key : String) : Registry :=
  match assocGet m rk with
  | none => assocSet m rk (RegEntry.placeholder [key])
  | some (RegEntry.placeholder l) => assocSet m rk (RegEntry.placeholder (l ++ [key]))
  | some (RegEntry.defn d) =>
    assocSet m rk (RegEntry.defn { d with required_by := d.required_by ++ [key] })

/-- The whole requires loop of `add`. -/
def foldPush (m : Registry) (reqs : List String) (key : String) : Registry :=
  reqs.foldl (fun acc rk => pushRequiredBy acc rk key) m

/-- The call `SettingsManager.add(key, definition)` for a single key (source lines
650-693), restricted to the registry: fetch the old entry, seed required_by
from it (a fresh empty array when the key had no entry), run the requires
loop, then store the new definition.  The stored required_by reflects the
source's array aliasing: when an old entry existed, required_by is the very
array held by that entry, so pushes landing on the key's own entry during
the requires loop (a definition requiring its own key) are visible in the
stored definition; when the key was fresh, the loop's placeholder for a
self-requirement is a different array and is clobbered by the final store. -/
def addDef (m : Registry) (key : String) (reqs : List String) : Registry :=
  assocSet (foldPush m reqs key) key
    (RegEntry.defn
      { requires := reqs,
        required_by :=
          match assocGet m key with
          | none => []
          | some _ => requiredByOf (foldPush m reqs key) key })

/-- A whole sequence of single-key `add` calls (the object form of `add`
just recurses into single-key calls). -/
def addAll (m : Registry) (calls : List (String × List String)) : Registry :=
  calls.foldl (fun acc c => addDef acc c.1 c.2) m

/-- Dependency-edge consistency exactly as claimed: every key appearing in
some registered definition's requires list holds that definition's key in
its required_by list. -/
def BidirFull (m : Registry) : Prop :=
  ∀ k d, assocGet m k = some (RegEntry.defn d) →
    ∀ rk ∈ d.requires, k ∈ requiredByOf m rk

/-- Dependency-edge consistency for all non-self edges. -/
def BidirExceptSelf (m : Registry) : Prop :=
  ∀ k d, assocGet m k = some (RegEntry.defn d) →
    ∀ rk ∈ d.requires, rk ≠ k → k ∈ requiredByOf m rk

-- ===========================================================================
-- Profiles, provider values and manager state
-- ===========================================================================

/-- An activation-condition blob stored on a profile's data.  The source
distinguishes the legacy object format (carrying a `moderator` flag) from
the array format by `Array.isArray`; the contents of an array-format
condition never matter to the manager code under proof, so they are
abstracted to an opaque code. -/
inductive CtxData
  | legacy (moderator : Bool)
  | rules (code : Nat)
deriving DecidableEq, Repr

/-- The persisted data blob of one profile (`{id, name, context?, url?}`). -/
structure ProfileData where
  id : Nat
  name : Option String
  context : Option CtxData
  url : Option String
deriving DecidableEq, Repr

/-- A value stored by the provider under some key. -/
inductive SVal
  | null
  | str (s : String)
  | num (n : Int)
  | profList (ps : List ProfileData)
deriving DecidableEq, Repr

/-- A live SettingsProfile instance.  `tag` models JS object identity
(distinct instances carry distinct tags); `listeners` models the identity
of the instance's listener bag, which loadProfiles moves over when it
replaces an instance in place. -/
structure Profile where
  tag : Nat
  data : ProfileData
  listeners : Nat
deriving DecidableEq, Repr

/-- Events emitted by SettingsManager, with the payload profile's tag. -/
inductive SMEvent
  | profileCreated (tag : Nat)
  | profileChanged (tag : Nat)
  | profilesReordered
  | profileDeleted (tag : Nat)
deriving DecidableEq, Repr

/-- The manager state the claims touch: the ordered profile list
(__profiles), the id map (__profile_ids, where a `none` value models a
slot nulled by deleteProfile), the provider's key-value mirror, the
contexts (each modelled by its count of selectProfiles invocations), the
provider readiness flag, and a source of fresh instance tags. -/
structure SMState where
  profiles : List Profile
  profileIds : List (Nat × Option Profile)
  provider : List (String × SVal)
  contexts : List Nat
  ready : Bool
  nextTag : Nat
deriving DecidableEq, Repr

namespace SettingsProfile

/-- Modelled from the spec: `SettingsProfile.Moderation`, the built-in
moderation profile data (profile.js is not part of the source tree).  The
spec fixes only that it is a non-default profile with an array-format
activation condition; id 0 is reserved for the default profile. -/
def Moderation : ProfileData :=
  { id := 1, name := some "Moderation", context := some (CtxData.rules 0), url := none }

/-- Modelled from the spec: `SettingsProfile.Default`, the built-in default
profile data with the reserved id 0 (profile.js is not part of the source
tree). -/
def Default : ProfileData :=
  { id := 0, name := some "Default", context := none, url := none }

end SettingsProfile

/-- Modelled from the spec: `deep_equals` from utilities/object (not in the
source tree) — deep structural equality of profile data blobs. -/
def deep_equals (a b : ProfileData) : Bool :=
  decide (a = b)

/-- JS lookup `__profile_ids[id]` with its falsy test: a missing binding and
a nulled binding both count as no profile. -/
def lookupLive (m : List (Nat × Option Profile)) (i : Nat) : Option Profile :=
  match assocGet m i with
  | some (some p) => some p
  | _ => none

/-- Truthiness of `__profile_ids[i]`. -/
def isLive (m : List (Nat × Option Profile)) (i : Nat) : Bool :=
  (lookupLive m i).isSome

/-- The call `Array.prototype.indexOf` over the profile list: index of the first
equal element, or -1. -/
def jsIndexOf : List Profile → Profile → Int
  | [], _ => -1
  | q :: rest, p =>
    if q = p then 0
    else
      let r := jsIndexOf rest p
      if r = -1 then -1 else r + 1

/-- The call `SettingsManager._saveProfiles()` (source lines 626-630): persist the
profile-data list under the reserved "profiles" key and call
selectProfiles() on every context. -/
def saveProfiles (st : SMState) : SMState :=
  { st with
    provider := assocSet st.provider "profiles" (SVal.profList (st.profiles.map Profile.data)),
    contexts := st.contexts.map (· + 1) }

/-- Boolean test that `pre` is an initial run of `l`, over character lists. -/
def listIsPre : List Char → List Char → Bool
  | [], _ => true
  | _ :: _, [] => false
  | a :: pre, b :: l => a = b && listIsPre pre l

/-- The characters of the profile-scoped key namespace `p:<id>:`. -/
def scopeChars (pid : Nat) : List Char :=
  'p' :: ':' :: (Nat.repr pid).data ++ [':']

/-- Modelled from the spec: `SettingsProfile.clear()` (profile.js is not in
the source tree) erases every provider key carrying this profile's
`p:<id>:` prefix. -/
def clearProfileData (prov : List (String × SVal)) (pid : Nat) : List (String × SVal) :=
  prov.filter (fun kv => ! listIsPre (scopeChars pid) kv.1.data)

/-- The call `SettingsManager.deleteProfile(id)` (source lines 570-590).  The first
component records whether the call threw: looking up a missing id returns
silently; resolving to the default profile (id 0) throws before any
mutation; otherwise the profile's scoped data is cleared, its id-map slot
nulled, the instance spliced out of the list, the list persisted via
_saveProfiles, and :profile-deleted emitted. -/
def deleteProfile (st : SMState) (id : Nat) : Bool × SMState × List SMEvent :=
  match lookupLive st.profileIds id with
  | none => (false, st, [])
  | some p =>
    if p.data.id = 0 then (true, st, [])
    else
      let prov1 := clearProfileData st.provider p.data.id
      let idMap1 := assocSet st.profileIds id none
      let i := jsIndexOf st.profiles p
      let profs1 := if i = -1 then st.profiles else st.profiles.eraseIdx i.toNat
      let st1 := { st with provider := prov1, profileIds := idMap1, profiles := profs1 }
      (false, saveProfiles st1, [SMEvent.profileDeleted p.tag])

/-- The options argument of createProfile; a `none` name models an absent
name field, and the empty string is likewise falsy in the source's test. -/
structure ProfileOptions where
  name : Option String
  context : Option CtxData
  url : Option String
deriving DecidableEq, Repr

/-- One more than the largest key bound in the id map; past every binding,
so its slot is always free. -/
def idMapBound (m : List (Nat × Option Profile)) : Nat :=
  (m.map Prod.fst).foldr max 0 + 1

/-- The id-allocation loop `while (this.__profile_ids[i]) i++` with explicit
fuel. -/
def allocAux (m : List (Nat × Option Profile)) : Nat → Nat → Nat
  | 0, i => i
  | fuel + 1, i => if isLive m i then allocAux m fuel (i + 1) else i

/-- The id allocated by createProfile: the first nonnegative integer whose
id-map slot is falsy. -/
def allocId (m : List (Nat × Option Profile)) : Nat :=
  allocAux m (idMapBound m) 0

/-- The call `SettingsManager.createProfile(options)` (source lines 545-563):
allocate the lowest free id, default a falsy name to "Unnamed Profile {id}",
register the new instance, unshift it onto the front of the profile list,
persist via _saveProfiles and emit :profile-created. -/
def createProfile (st : SMState) (opts : ProfileOptions) : SMState × List SMEvent × Profile :=
  let i := allocId st.profileIds
  let nm := match opts.name with
    | some n => if n = "" then "Unnamed Profile " ++ Nat.repr i else n
    | none => "Unnamed Profile " ++ Nat.repr i
  let pd : ProfileData := { id := i, name := some nm, context := opts.context, url := opts.url }
  let p : Profile := { tag := st.nextTag, data := pd, listeners := st.nextTag }
  let st1 := { st with
    profileIds := assocSet st.profileIds i (some p),
    profiles := p :: st.profiles,
    nextTag := st.nextTag + 1 }
  (saveProfiles st1, [SMEvent.profileCreated p.tag], p)

/-- The versioned backup object built by getFullBackup. -/
structure Backup where
  version : Nat
  type : String
  values : List (String × SVal)
deriving DecidableEq, Repr

/-- The call `SettingsManager.getFullBackup()` (source lines 335-349): after
awaiting provider readiness (so it runs in a ready provider state),
snapshot every provider entry into `out.values` and return the versioned
backup object. -/
def getFullBackup (st : SMState) : Backup :=
  { version := 2,
    type := "full",
    values := st.provider.foldl (fun acc kv => assocSet acc kv.1 kv.2) [] }

-- ===========================================================================
-- loadProfiles (source lines 456-537)
-- ===========================================================================

/-- The legacy-format monkey patch applied to each raw profile entry before
reconciliation (source lines 491-497): a non-array context object is
replaced by the Moderation condition when its moderator flag is set, and by
null otherwise. -/
def patchContext (pd : ProfileData) : ProfileData :=
  match pd.context with
  | some (CtxData.legacy m) =>
    if m then { pd with context := SettingsProfile.Moderation.context }
    else { pd with context := none }
  | _ => pd

/-- The raw profile-data list read at the top of loadProfiles:
`provider.get('profiles', [Moderation, Default])`.  A stored value of the
wrong shape has no meaning to the loop and yields `none` (the source would
crash iterating it). -/
def rawProfilesOf (prov : List (String × SVal)) : Option (List ProfileData) :=
  match assocGet prov "profiles" with
  | none => some [SettingsProfile.Moderation, SettingsProfile.Default]
  | some (SVal.profList ps) => some ps
  | some _ => none

/-- The loop state of loadProfiles: the new profile list and id map being
built, the shrinking set of leftover old ids, the id sets and flags feeding
the event phase, and the fresh-tag source for new instances. -/
structure LoadAcc where
  profiles : List Profile
  profileIds : List (Nat × Option Profile)
  oldIds : List Nat
  newIds : List Nat
  changedIds : List Nat
  reordered : Bool
  changed : Bool
  nextTag : Nat
deriving DecidableEq, Repr

/-- One iteration of the loadProfiles reconciliation loop (source lines
480-521), processing one raw profile-data entry against the old profile
list and old id map. -/
def loadStep (oldProfiles : List Profile) (oldIdMap : List (Nat × Option Profile))
    (acc : LoadAcc) (pd0 : ProfileData) : LoadAcc :=
  let id := pd0.id
  let slot : Int := (acc.profiles.length : Int)
  let oldP := lookupLive oldIdMap id
  let oldSlot : Int := match oldP with
    | some p => jsIndexOf oldProfiles p
    | none => -1
  let oldIds := acc.oldIds.erase id
  let reordered := if oldSlot = slot then acc.reordered else true
  let pd := patchContext pd0
  match oldP with
  | some p =>
    if deep_equals p.data pd then
      { acc with
        profiles := acc.profiles ++ [p],
        profileIds := assocSet acc.profileIds id (some p),
        oldIds := oldIds,
        reordered := reordered,
        changed := if oldSlot = slot then acc.changed else true }
    else
      { acc with
        profiles := acc.profiles ++ [{ tag := acc.nextTag, data := pd, listeners := p.listeners }],
        profileIds := assocSet acc.profileIds id
          (some { tag := acc.nextTag, data := pd, listeners := p.listeners }),
        oldIds := oldIds,
        reordered := reordered,
        changed := true,
        changedIds := acc.changedIds ++ [id],
        nextTag := acc.nextTag + 1 }
  | none =>
    { acc with
      profiles := acc.profiles ++ [{ tag := acc.nextTag, data := pd, listeners := acc.nextTag }],
      profileIds := assocSet acc.profileIds id
        (some { tag := acc.nextTag, data := pd, listeners := acc.nextTag }),
      oldIds := oldIds,
      reordered := reordered,
      changed := true,
      newIds := acc.newIds ++ [id],
      nextTag := acc.nextTag + 1 }

/-- The tag of the profile held by the id map at an id (the payload of the
per-id events loadProfiles emits). -/
def tagOf (m : List (Nat × Option Profile)) (i : Nat) : Nat :=
  match lookupLive m i with
  | some p => p.tag
  | none => 0

/-- The call `SettingsManager.loadProfiles(suppress_events)` (source lines 456-537):
reconcile the persisted profile-data list against the existing instances.
The new lists replace the state's lists unconditionally; when nothing
changed and nothing was dropped, or when events are suppressed, the call
returns before firing events or reselecting profiles; otherwise it calls
selectProfiles() on every context and emits :profile-created,
:profile-changed and :profiles-reordered as accumulated. -/
def loadProfiles (st : SMState) (suppress : Bool) : Option (SMState × List SMEvent) :=
  match rawProfilesOf st.provider with
  | none => none
  | some raw =>
    let init : LoadAcc :=
      { profiles := [],
        profileIds := [],
        oldIds := (st.profiles.map (fun p => p.data.id)).dedup,
        newIds := [],
        changedIds := [],
        reordered := false,
        changed := false,
        nextTag := st.nextTag }
    let acc := raw.foldl (loadStep st.profiles st.profileIds) init
    let st1 := { st with
      profiles := acc.profiles,
      profileIds := acc.profileIds,
      nextTag := acc.nextTag }
    if (!acc.changed && acc.oldIds.isEmpty) || suppress then
      some (st1, [])
    else
      let st2 := { st1 with contexts := st1.contexts.map (· + 1) }
      let evs :=
        acc.newIds.map (fun i => SMEvent.profileCreated (tagOf acc.profileIds i)) ++
        acc.changedIds.map (fun i => SMEvent.profileChanged (tagOf acc.profileIds i)) ++
        (if acc.reordered then [SMEvent.profilesReordered] else [])
      some (st2, evs)

-- ===========================================================================
-- _onProviderChange (source lines 404-425)
-- ===========================================================================

/-- What _onProviderChange does with one notification: reload the whole
profile list, forward a scoped changed event to one live profile, or drop
the notification with no state change and no event. -/
inductive PCAction
  | reload
  | emitChanged (tag : Nat) (subkey : String) (value : SVal) (deleted : Bool)
  | drop
deriving DecidableEq, Repr

/-- Split a character list at its first colon (`key.indexOf(':')` plus the
two slices), or `none` when it has no colon. -/
def breakAtColon : List Char → Option (List Char × List Char)
  | [] => none
  | c :: rest =>
    if c = ':' then some ([], rest)
    else
      match breakAtColon rest with
      | none => none
      | some (a, b) => some (c :: a, b)

/-- JS property lookup `__profile_ids[idString]`: properties were created
under the decimal rendering of each numeric id, and a nulled slot is falsy. -/
def findByIdStr : List (Nat × Option Profile) → String → Option Profile
  | [], _ => none
  | (k, v) :: rest, s => if Nat.repr k = s then v else findByIdStr rest s

/-- The call `SettingsManager._onProviderChange(key, value, deleted)` (source lines
404-425): the key "profiles" reloads the profile list; a key starting with
"p:" is split at the next colon into a profile id and a setting subkey, and
forwarded as a scoped changed event when a live profile with that id
exists; every other key, a "p:"-prefixed key with no second colon, and an
unknown or nulled profile id fall through with no effect. -/
def onProviderChange (st : SMState) (key : String) (value : SVal) (deleted : Bool) :
    PCAction :=
  if key = "profiles" then PCAction.reload
  else
    match key.data with
    | c1 :: c2 :: rest =>
      if c1 = 'p' then
        if c2 = ':' then
          match breakAtColon rest with
          | none => PCAction.drop
          | some (idChars, subChars) =>
            match findByIdStr st.profileIds (String.mk idChars) with
            | some p => PCAction.emitChanged p.tag (String.mk subChars) value deleted
            | none => PCAction.drop
        else PCAction.drop
      else PCAction.drop
    | _ => PCAction.drop

-- ===========================================================================
-- Update sweep scheduling (source lines 352-378)
-- ===========================================================================

/-- The timer environment of the update sweep: the manager's single
`_update_timer` handle, the pending timeouts of the event loop as
(handle, delay-in-ms) pairs, and the next fresh handle. -/
structure TimerSys where
  updateTimer : Option Nat
  pending : List (Nat × Nat)
  nextHandle : Nat
deriving DecidableEq, Repr

/-- The call `clearTimeout(h)`: remove a pending timeout by handle. -/
def clearTimeoutSys (ts : TimerSys) (h : Nat) : TimerSys :=
  { ts with pending := ts.pending.filter (fun e => e.1 != h) }

/-- The call `setTimeout(cb, delay)`: arm a fresh timeout and return its handle. -/
def setTimeoutSys (ts : TimerSys) (delay : Nat) : TimerSys × Nat :=
  ({ ts with
      pending := ts.pending ++ [(ts.nextHandle, delay)],
      nextHandle := ts.nextHandle + 1 },
    ts.nextHandle)

/-- The call `SettingsManager.scheduleUpdates()` (source lines 352-357): clear the
tracked timer if one is set, then arm a fresh 5000 ms timeout whose
callback is checkUpdates, and track its handle. -/
def scheduleUpdates (ts : TimerSys) : TimerSys :=
  let ts1 := match ts.updateTimer with
    | some h => clearTimeoutSys ts h
    | none => ts
  let r := setTimeoutSys ts1 5000
  { r.1 with updateTimer := some r.2 }

/-- A pending timeout fires: the event loop consumes it and runs its
callback.  The update timer's callback is checkUpdates (source lines
360-378), which contains no timer operation at all — in particular it never
calls scheduleUpdates or setTimeout — so firing leaves no replacement
timeout behind. -/
def fireUpdateTimer (ts : TimerSys) (h : Nat) : TimerSys :=
  { ts with pending := ts.pending.filter (fun e => e.1 != h) }

/-- The sweep loop of checkUpdates (source lines 361-368): iterate the
profile list, skip profiles without a remote url, and collect the result of
checkUpdate() for the rest (`result` gives each profile's truthy/falsy
refresh outcome). -/
def checkUpdatesSweep (profiles : List Profile) (result : Profile → Bool) : List Bool :=
  profiles.foldl (fun acc p => if p.data.url.isSome then acc ++ [result p] else acc) []

/-- The success tally logged by checkUpdates (source lines 370-377). -/
def checkUpdatesSuccess (profiles : List Profile) (result : Profile → Bool) : Nat :=
  (checkUpdatesSweep profiles result).count true

/-- At most one update timeout is outstanding, and any outstanding one is
the tracked `_update_timer` handle. -/
def OneTimerInv (ts : TimerSys) : Prop :=
  ts.pending.length ≤ 1 ∧ ∀ e ∈ ts.pending, ts.updateTimer = some e.1

-- ===========================================================================
-- Concrete states for witnesses and counterexamples
-- ===========================================================================

/-- The reserved default profile instance of the example states. -/
def exDefault : Profile :=
  { tag := 10, data := SettingsProfile.Default, listeners := 20 }

/-- A deletable second profile for the example states. -/
def exSecond : Profile :=
  { tag := 11,
    data := { id := 1, name := some "Second", context := none, url := none },
    listeners := 21 }

/-- An example manager state holding the default profile and one deletable
profile, with one context and a scoped override stored for profile 1. -/
def exState : SMState :=
  { profiles := [exSecond, exDefault],
    profileIds := [(0, some exDefault), (1, some exSecond)],
    provider := [("profiles", SVal.profList [exSecond.data, exDefault.data]),
                 ("p:1:x", SVal.num 3),
                 ("some.key", SVal.str "v")],
    contexts := [0],
    ready := true,
    nextTag := 12 }

/-- A third profile, holding id 2, for the id-gap example state. -/
def exThird : Profile :=
  { tag := 12,
    data := { id := 2, name := some "Third", context := none, url := none },
    listeners := 22 }

/-- An example manager state whose used ids are 0 and 2, leaving the gap 1
free. -/
def exGapState : SMState :=
  { profiles := [exThird, exDefault],
    profileIds := [(0, some exDefault), (2, some exThird)],
    provider := [("profiles", SVal.profList [exThird.data, exDefault.data])],
    contexts := [0],
    ready := true,
    nextTag := 13 }

/-- A profile whose data still carries the legacy (non-array) context
format. -/
def exLegacy : Profile :=
  { tag := 30,
    data := { id := 1, name := some "Legacy",
              context := some (CtxData.legacy true), url := none },
    listeners := 40 }

/-- An example state whose single in-memory instance is deep-equal, in the
same slot, to the persisted entry — but the shared data uses the legacy
context format. -/
def exLegacyState : SMState :=
  { profiles := [exLegacy],
    profileIds := [(1, some exLegacy)],
    provider := [("profiles", SVal.profList [exLegacy.data])],
    contexts := [0],
    ready := true,
    nextTag := 31 }

/-- A fresh-install state: nothing persisted, no instances. -/
def exFreshState : SMState :=
  { profiles := [],
    profileIds := [],
    provider := [],
    contexts := [],
    ready := false,
    nextTag := 0 }

-- ===========================================================================
-- Theorems
-- ===========================================================================

theorem assocGet_assocSet_self {α β : Type} [DecidableEq α]
    (l : List (α × β)) (k : α) (v : β) : assocGet (assocSet l k v) k = some v := by
  induction l with
  | nil => simp [assocGet, assocSet]
  | cons hd tl ih =>
    obtain ⟨k0, v0⟩ := hd
    by_cases h : k0 = k
    · subst h
      simp [assocGet, assocSet]
    · simp [assocGet, assocSet, h, ih]

theorem assocGet_assocSet_ne {α β : Type} [DecidableEq α]
    (l : List (α × β)) (k k' : α) (v : β) (h : k' ≠ k) :
    assocGet (assocSet l k v) k' = assocGet l k' := by
  induction l with
  | nil =>
    simp only [assocSet, assocGet]
    rw [if_neg (fun e => h e.symm)]
  | cons hd tl ih =>
    obtain ⟨k0, v0⟩ := hd
    by_cases h0 : k0 = k
    · subst h0
      simp only [assocSet, if_pos rfl, assocGet]
      rw [if_neg (fun e => h e.symm), if_neg (fun e => h e.symm)]
    · simp only [assocSet, if_neg h0, assocGet]
      by_cases h1 : k0 = k'
      · simp [h1]
      · simp [h1, ih]

theorem requiredByOf_assocSet (m : Registry) (k x : String) (e : RegEntry) :
    requiredByOf (assocSet m k e) x =
      if x = k then regRB (some e) else requiredByOf m x := by
  by_cases h : x = k
  · subst h
    simp [requiredByOf, assocGet_assocSet_self]
  · simp [requiredByOf, assocGet_assocSet_ne _ _ _ _ h, h]

theorem requiredByOf_pushRequiredBy (m : Registry) (rk key x : String) :
    requiredByOf (pushRequiredBy m rk key) x =
      if x = rk then requiredByOf m rk ++ [key] else requiredByOf m x := by
  unfold pushRequiredBy
  cases hg : assocGet m rk with
  | none =>
    rw [requiredByOf_assocSet]
    by_cases h : x = rk
    · simp [h, requiredByOf, hg, regRB]
    · simp [h]
  | some e =>
    cases e with
    | placeholder l =>
      rw [requiredByOf_assocSet]
      by_cases h : x = rk
      · simp [h, requiredByOf, hg, regRB]
      · simp [h]
    | defn d =>
      rw [requiredByOf_assocSet]
      by_cases h : x = rk
      · simp [h, requiredByOf, hg, regRB]
      · simp [h]

theorem assocGet_pushRequiredBy_ne (m : Registry) (rk key x : String) (h : x ≠ rk) :
    assocGet (pushRequiredBy m rk key) x = assocGet m x := by
  unfold pushRequiredBy
  cases hg : assocGet m rk with
  | none => exact assocGet_assocSet_ne _ _ _ _ h
  | some e =>
    cases e with
    | placeholder l => exact assocGet_assocSet_ne _ _ _ _ h
    | defn d => exact assocGet_assocSet_ne _ _ _ _ h

theorem assocGet_pushRequiredBy_defn (m : Registry) (rk key x : String) (d : SettingDef)
    (h : assocGet (pushRequiredBy m rk key) x = some (RegEntry.defn d)) :
    ∃ d0 : SettingDef, assocGet m x = some (RegEntry.defn d0) ∧ d0.requires = d.requires := by
  by_cases hx : x = rk
  · subst hx
    unfold pushRequiredBy at h
    cases hg : assocGet m x with
    | none =>
      rw [hg, assocGet_assocSet_self] at h
      cases h
    | some e =>
      cases e with
      | placeholder l =>
        rw [hg, assocGet_assocSet_self] at h
        cases h
      | defn d0 =>
        rw [hg, assocGet_assocSet_self] at h
        cases h
        exact ⟨d0, rfl, rfl⟩
  · rw [assocGet_pushRequiredBy_ne _ _ _ _ hx] at h
    exact ⟨d, h, rfl⟩

theorem foldPush_cons (m : Registry) (r : String) (rest : List String) (key : String) :
    foldPush m (r :: rest) key = foldPush (pushRequiredBy m r key) rest key := rfl

theorem mem_requiredByOf_foldPush (reqs : List String) (m : Registry) (key x a : String)
    (h : a ∈ requiredByOf m x) : a ∈ requiredByOf (foldPush m reqs key) x := by
  induction reqs generalizing m with
  | nil => exact h
  | cons r rest ih =>
    rw [foldPush_cons]
    apply ih
    rw [requiredByOf_pushRequiredBy]
    by_cases hx : x = r
    · simp only [hx, if_pos rfl]
      exact List.mem_append_left _ (hx ▸ h)
    · simpa [hx] using h

theorem key_mem_foldPush (reqs : List String) (m : Registry) (key rk : String)
    (h : rk ∈ reqs) : key ∈ requiredByOf (foldPush m reqs key) rk := by
  induction reqs generalizing m with
  | nil => cases h
  | cons r rest ih =>
    rw [foldPush_cons]
    rcases List.mem_cons.mp h with h1 | h2
    · subst h1
      apply mem_requiredByOf_foldPush
      rw [requiredByOf_pushRequiredBy, if_pos rfl]
      exact List.mem_append_right _ (List.mem_singleton.mpr rfl)
    · exact ih _ h2

theorem foldPush_defn (reqs : List String) (m : Registry) (key x : String) (d : SettingDef)
    (h : assocGet (foldPush m reqs key) x = some (RegEntry.defn d)) :
    ∃ d0 : SettingDef, assocGet m x = some (RegEntry.defn d0) ∧ d0.requires = d.requires := by
  induction reqs generalizing m d with
  | nil => exact ⟨d, h, rfl⟩
  | cons r rest ih =>
    rw [foldPush_cons] at h
    obtain ⟨d1, h1, hq1⟩ := ih _ _ h
    obtain ⟨d0, h0, hq0⟩ := assocGet_pushRequiredBy_defn _ _ _ _ _ h1
    exact ⟨d0, h0, hq0.trans hq1⟩

theorem foldPush_not_mem (reqs : List String) (m : Registry) (key x : String)
    (h : x ∉ reqs) : assocGet (foldPush m reqs key) x = assocGet m x := by
  induction reqs generalizing m with
  | nil => rfl
  | cons r rest ih =>
    rw [foldPush_cons]
    have hx : x ≠ r := fun e => h (e ▸ List.mem_cons_self r rest)
    rw [ih _ (fun e => h (List.mem_cons_of_mem r e)), assocGet_pushRequiredBy_ne _ _ _ _ hx]

/-- One `add` call preserves non-self dependency-edge consistency. -/
theorem addDef_preserves (m : Registry) (key : String) (reqs : List String)
    (h : BidirExceptSelf m) : BidirExceptSelf (addDef m key reqs) := by
  intro k d hget rk hrk hne
  unfold addDef at hget ⊢
  by_cases hk : k = key
  · subst hk
    rw [assocGet_assocSet_self] at hget
    have hd : d.requires = reqs := by
      cases hget
      rfl
    rw [requiredByOf_assocSet, if_neg hne]
    exact key_mem_foldPush _ _ _ _ (hd ▸ hrk)
  · rw [assocGet_assocSet_ne _ _ _ _ hk] at hget
    obtain ⟨d0, h0, hq0⟩ := foldPush_defn _ _ _ _ _ hget
    have hmem : k ∈ requiredByOf m rk := h k d0 h0 rk (hq0 ▸ hrk) hne
    rw [requiredByOf_assocSet]
    by_cases hrk2 : rk = key
    · subst hrk2
      rw [if_pos rfl]
      cases hg : assocGet m rk with
      | none =>
        exfalso
        rw [requiredByOf, hg] at hmem
        cases hmem
      | some e =>
        simp only [regRB, hg]
        exact mem_requiredByOf_foldPush _ _ _ _ _ hmem
    · rw [if_neg hrk2]
      exact mem_requiredByOf_foldPush _ _ _ _ _ hmem

theorem addAll_preserves (calls : List (String × List String)) (m : Registry)
    (h : BidirExceptSelf m) : BidirExceptSelf (addAll m calls) := by
  induction calls generalizing m with
  | nil => exact h
  | cons c rest ih => exact ih _ (addDef_preserves _ _ _ h)

/-- C1 (amended): for every sequence of add(key, definition) calls starting
from the empty registry, every key K appearing in some registered
definition D's requires list, other than D's own key, has D's key contained
in the required_by list associated with K (a placeholder entry is created
when K is not yet defined).  Self-requirements are excluded: a definition
listing its own, previously unregistered key gets no self-edge. -/
theorem c1_add_bidirectional (calls : List (String × List String)) :
    BidirExceptSelf (addAll [] calls) := by
  apply addAll_preserves
  intro k d hget
  cases hget

/-- C1 counterexample: the single call add("a", requires ["a"]) on a fresh
registry stores the definition with an empty required_by (the requires
loop's placeholder is clobbered by the final store), so the claim's
unrestricted bidirectional consistency fails. -/
theorem c1_cex : ¬ BidirFull (addAll [] [("a", ["a"])]) := by
  intro h
  have h2 := h "a" { requires := ["a"], required_by := [] } (by decide) "a" (by decide)
  have h3 : requiredByOf (addAll [] [("a", ["a"])]) "a" = [] := by decide
  rw [h3] at h2
  cases h2

/-- C8 (amended): for a key K already holding an entry, add(K, newDefinition)
replaces the stored definition with newDefinition (last registration wins),
and its required_by list is exactly the edges accumulated before the
re-registration (the bare array of a placeholder entry included), provided
newDefinition does not list K in its own requires. -/
theorem c8_readd_keeps_edges (m : Registry) (K : String) (e : RegEntry) (reqs : List String)
    (he : assocGet m K = some e) (hni : K ∉ reqs) :
    assocGet (addDef m K reqs) K =
      some (RegEntry.defn { requires := reqs, required_by := regRB (some e) }) := by
  unfold addDef
  rw [assocGet_assocSet_self, he, requiredByOf, foldPush_not_mem _ _ _ _ hni, he]

/-- C8 witness: re-registering "k" (currently a placeholder with edge "b")
with requires ["x"] stores the new definition and keeps exactly the edge
list ["b"]. -/
theorem c8_readd_keeps_edges_witness :
    assocGet (addDef [("k", RegEntry.placeholder ["b"])] "k" ["x"]) "k" =
      some (RegEntry.defn { requires := ["x"], required_by := ["b"] }) := by
  have h := c8_readd_keeps_edges [("k", RegEntry.placeholder ["b"])] "k"
    (RegEntry.placeholder ["b"]) ["x"] (by decide) (by decide)
  simpa [regRB] using h

/-- C8 counterexample: after add("b", requires ["a"]) the key "a" holds the
edge list ["b"]; re-registering "a" with a definition that requires "a"
itself appends "a" to the carried-over array (array aliasing in the
source), so the stored required_by is ["b", "a"], not exactly the
previously accumulated edges ["b"]. -/
theorem c8_cex :
    requiredByOf (addAll [] [("b", ["a"])]) "a" = ["b"] ∧
    requiredByOf (addAll [] [("b", ["a"]), ("a", ["a"])]) "a" = ["b", "a"] ∧
    requiredByOf (addAll [] [("b", ["a"]), ("a", ["a"])]) "a" ≠
      requiredByOf (addAll [] [("b", ["a"])]) "a" := by
  refine ⟨by decide, by decide, by decide⟩

theorem jsIndexOf_ge (l : List Profile) (p : Profile) : -1 ≤ jsIndexOf l p := by
  induction l with
  | nil => simp [jsIndexOf]
  | cons q rest ih =>
    simp only [jsIndexOf]
    by_cases h : q = p
    · simp [h]
    · rw [if_neg h]
      by_cases h2 : jsIndexOf rest p = -1
      · simp [h2]
      · rw [if_neg h2]
        omega

theorem jsIndexOf_eq_neg_one (l : List Profile) (p : Profile) :
    jsIndexOf l p = -1 ↔ p ∉ l := by
  induction l with
  | nil => simp [jsIndexOf]
  | cons q rest ih =>
    simp only [jsIndexOf, List.mem_cons]
    by_cases h : q = p
    · simp [h]
    · rw [if_neg h]
      by_cases h2 : jsIndexOf rest p = -1
      · rw [if_pos h2]
        constructor
        · intro _
          rintro (e | e)
          · exact h e.symm
          · exact (ih.mp h2) e
        · intro _
          rfl
      · rw [if_neg h2]
        have hge := jsIndexOf_ge rest p
        constructor
        · intro he
          omega
        · intro hmem
          exfalso
          exact hmem (Or.inr (by_contra fun hn => h2 (ih.mpr hn)))

theorem jsSplice_erase (l : List Profile) (p : Profile) :
    (if jsIndexOf l p = -1 then l else l.eraseIdx (jsIndexOf l p).toNat) = l.erase p := by
  induction l with
  | nil => simp [jsIndexOf]
  | cons q rest ih =>
    by_cases h : q = p
    · subst h
      simp [jsIndexOf, List.eraseIdx, List.erase_cons_head]
    · have hqp : ¬ (q == p) = true := by simpa using h
      simp only [jsIndexOf, if_neg h]
      by_cases h2 : jsIndexOf rest p = -1
      · have hc : (if jsIndexOf rest p = -1 then (-1 : Int) else jsIndexOf rest p + 1) = -1 := by
          rw [if_pos h2]
        rw [if_pos hc, List.erase_cons, if_neg hqp,
          List.erase_of_not_mem ((jsIndexOf_eq_neg_one rest p).mp h2)]
      · have hge := jsIndexOf_ge rest p
        have hpos : 0 ≤ jsIndexOf rest p := by omega
        have hne : ¬ (jsIndexOf rest p + 1 = -1) := by omega
        simp only [if_neg h2, if_neg hne]
        have htn : (jsIndexOf rest p + 1).toNat = (jsIndexOf rest p).toNat + 1 := by omega
        rw [htn, List.eraseIdx_cons_succ, List.erase_cons, if_neg hqp]
        rw [if_neg h2] at ih
        rw [ih]

theorem assocGet_filter_none {α β : Type} [DecidableEq α] (l : List (α × β))
    (P : α × β → Bool) (k : α) (h : ∀ v, P (k, v) = false) :
    assocGet (l.filter P) k = none := by
  induction l with
  | nil => rfl
  | cons hd tl ih =>
    obtain ⟨k0, v0⟩ := hd
    by_cases hp : P (k0, v0) = true
    · rw [List.filter_cons_of_pos hp]
      simp only [assocGet]
      have hk : k0 ≠ k := by
        intro e
        subst e
        rw [h v0] at hp
        cases hp
      rw [if_neg hk]
      exact ih
    · rw [List.filter_cons_of_neg (by simpa using hp)]
      exact ih

theorem scope_not_profiles (pid : Nat) :
    listIsPre (scopeChars pid) "profiles".data = false := by
  have hd : "profiles".data = 'p' :: 'r' :: "ofiles".data := rfl
  rw [scopeChars, hd]
  simp [listIsPre]

/-- C4: deleteProfile(id) on an id resolving to the reserved default
profile (id 0) throws and leaves the whole state — profile list, id map and
provider — untouched; on any other id resolving to a live profile it does
not throw, splices that instance out of the list, erases every provider key
scoped to the profile, re-persists the profile list and emits exactly one
:profile-deleted event for it. -/
theorem c4_deleteProfile (st : SMState) (id : Nat) (p : Profile)
    (h : lookupLive st.profileIds id = some p) :
    (p.data.id = 0 → deleteProfile st id = (true, st, [])) ∧
    (p.data.id ≠ 0 →
      (deleteProfile st id).1 = false ∧
      (deleteProfile st id).2.1.profiles = st.profiles.erase p ∧
      (∀ k : String, listIsPre (scopeChars p.data.id) k.data = true →
        assocGet (deleteProfile st id).2.1.provider k = none) ∧
      assocGet (deleteProfile st id).2.1.provider "profiles" =
        some (SVal.profList ((st.profiles.erase p).map Profile.data)) ∧
      (deleteProfile st id).2.2 = [SMEvent.profileDeleted p.tag]) := by
  constructor
  · intro h0
    simp only [deleteProfile, h, if_pos h0]
  · intro hne
    simp only [deleteProfile, h, if_neg hne, saveProfiles]
    refine ⟨trivial, ?_, ?_, ?_, trivial⟩
    · exact jsSplice_erase st.profiles p
    · intro k hk
      have hkp : k ≠ "profiles" := by
        intro e
        rw [e, scope_not_profiles] at hk
        cases hk
      rw [assocGet_assocSet_ne _ _ _ _ hkp]
      apply assocGet_filter_none
      intro v
      simp [hk]
    · rw [assocGet_assocSet_self, jsSplice_erase st.profiles p]

/-- C4 witness: in the example state, deleting id 0 (the default profile)
throws and changes nothing, while deleting id 1 removes exactly that
profile, drops its scoped key and emits :profile-deleted. -/
theorem c4_deleteProfile_witness :
    deleteProfile exState 0 = (true, exState, []) ∧
    (deleteProfile exState 1).2.1.profiles = [exDefault] ∧
    assocGet (deleteProfile exState 1).2.1.provider "p:1:x" = none ∧
    (deleteProfile exState 1).2.2 = [SMEvent.profileDeleted 11] := by
  have h0 := c4_deleteProfile exState 0 exDefault (by decide)
  have h1 := c4_deleteProfile exState 1 exSecond (by decide)
  have h1r := h1.2 (by decide)
  refine ⟨h0.1 rfl, ?_, ?_, h1r.2.2.2.2⟩
  · rw [h1r.2.1]
    decide
  · exact h1r.2.2.1 "p:1:x" (by decide)

theorem assocGet_mem_keys {α β : Type} [DecidableEq α] (l : List (α × β)) (k : α) (v : β)
    (h : assocGet l k = some v) : k ∈ l.map Prod.fst := by
  induction l with
  | nil => cases h
  | cons hd tl ih =>
    obtain ⟨k0, v0⟩ := hd
    simp only [assocGet] at h
    by_cases e : k0 = k
    · subst e
      exact List.mem_cons_self _ _
    · rw [if_neg e] at h
      exact List.mem_cons_of_mem _ (ih h)

theorem mem_le_foldr_max (l : List Nat) (x : Nat) (h : x ∈ l) : x ≤ l.foldr max 0 := by
  induction l with
  | nil => cases h
  | cons a t ih =>
    rcases List.mem_cons.mp h with e | e
    · subst e
      exact le_max_left _ _
    · exact le_trans (ih e) (le_max_right _ _)

theorem isLive_lt_idMapBound (m : List (Nat × Option Profile)) (i : Nat)
    (h : isLive m i = true) : i < idMapBound m := by
  unfold isLive lookupLive at h
  cases hg : assocGet m i with
  | none =>
    rw [hg] at h
    simp at h
  | some v =>
    have hle := mem_le_foldr_max _ _ (assocGet_mem_keys m i v hg)
    unfold idMapBound
    omega

theorem allocAux_spec (m : List (Nat × Option Profile)) (fuel i : Nat)
    (h : isLive m (i + fuel) = false) :
    isLive m (allocAux m fuel i) = false ∧
    ∀ j, i ≤ j → j < allocAux m fuel i → isLive m j = true := by
  induction fuel generalizing i with
  | zero =>
    refine ⟨by simpa using h, fun j hj1 hj2 => ?_⟩
    simp only [allocAux] at hj2
    omega
  | succ f ih =>
    simp only [allocAux]
    by_cases hl : isLive m i = true
    · rw [if_pos hl]
      have h' : isLive m ((i + 1) + f) = false := by
        rw [show (i + 1) + f = i + (f + 1) by omega]
        exact h
      obtain ⟨h1, h2⟩ := ih (i + 1) h'
      refine ⟨h1, fun j hj1 hj2 => ?_⟩
      by_cases hji : j = i
      · subst hji
        exact hl
      · exact h2 j (by omega) hj2
    · rw [if_neg hl]
      exact ⟨by simpa using hl, fun j hj1 hj2 => by omega⟩

theorem allocId_spec (m : List (Nat × Option Profile)) :
    isLive m (allocId m) = false ∧ ∀ j, j < allocId m → isLive m j = true := by
  have hb : isLive m (0 + idMapBound m) = false := by
    by_contra hc
    have hc2 : isLive m (0 + idMapBound m) = true := by
      simpa using hc
    have := isLive_lt_idMapBound m _ hc2
    omega
  obtain ⟨h1, h2⟩ := allocAux_spec m (idMapBound m) 0 hb
  exact ⟨h1, fun j hj => h2 j (Nat.zero_le j) hj⟩

/-- C5: createProfile allocates the lowest nonnegative integer id not among
the currently used ids (the first id whose map slot is falsy), defaults an
absent name to "Unnamed Profile {id}" with that id substituted, persists
the profile list under "profiles" and emits :profile-created. -/
theorem c5_createProfile (st : SMState) (opts : ProfileOptions) (S : List Nat)
    (hS : ∀ i, isLive st.profileIds i = true ↔ i ∈ S) :
    (createProfile st opts).2.2.data.id ∉ S ∧
    (∀ j, j < (createProfile st opts).2.2.data.id → j ∈ S) ∧
    (opts.name = none →
      (createProfile st opts).2.2.data.name =
        some ("Unnamed Profile " ++ Nat.repr (createProfile st opts).2.2.data.id)) ∧
    assocGet (createProfile st opts).1.provider "profiles" =
      some (SVal.profList ((createProfile st opts).1.profiles.map Profile.data)) ∧
    (createProfile st opts).2.1 =
      [SMEvent.profileCreated (createProfile st opts).2.2.tag] := by
  obtain ⟨ha, hb⟩ := allocId_spec st.profileIds
  have hid : (createProfile st opts).2.2.data.id = allocId st.profileIds := rfl
  refine ⟨?_, ?_, ?_, ?_, rfl⟩
  · rw [hid]
    intro hmem
    rw [(hS _).mpr hmem] at ha
    cases ha
  · intro j hj
    exact (hS j).mp (hb j (hid ▸ hj))
  · intro hn
    simp only [createProfile, hn]
  · exact assocGet_assocSet_self _ _ _

/-- C5 witness: with ids 0 and 2 in use, createProfile allocates the gap
id 1, and every smaller id is in use. -/
theorem c5_createProfile_witness :
    (createProfile exGapState { name := none, context := none, url := none }).2.2.data.id ∉
      [0, 2] ∧
    ∀ j, j < (createProfile exGapState { name := none, context := none, url := none }).2.2.data.id →
      j ∈ [0, 2] := by
  have h := c5_createProfile exGapState { name := none, context := none, url := none } [0, 2] ?hS
  · exact ⟨h.1, h.2.1⟩
  case hS =>
    intro i
    simp only [exGapState, isLive, lookupLive, assocGet]
    by_cases h0 : (0 : Nat) = i
    · subst h0
      simp
    · rw [if_neg h0]
      by_cases h2 : (2 : Nat) = i
      · subst h2
        simp
      · rw [if_neg h2]
        simp only [Option.isSome_none, List.mem_cons, List.not_mem_nil, or_false]
        constructor
        · intro hx
          cases hx
        · intro hx
          omega

/-- C9: every profile created by createProfile is unshifted to index 0 of
the profile list, making it the highest-priority profile; the creation
immediately persists the list under "profiles" and triggers selectProfiles()
on every context via _saveProfiles, and :profile-created is emitted with
the new profile. -/
theorem c9_createProfile_unshift (st : SMState) (opts : ProfileOptions) :
    (createProfile st opts).1.profiles = (createProfile st opts).2.2 :: st.profiles ∧
    assocGet (createProfile st opts).1.provider "profiles" =
      some (SVal.profList (((createProfile st opts).2.2 :: st.profiles).map Profile.data)) ∧
    (createProfile st opts).1.contexts = st.contexts.map (· + 1) ∧
    (createProfile st opts).2.1 =
      [SMEvent.profileCreated (createProfile st opts).2.2.tag] := by
  refine ⟨rfl, ?_, rfl, rfl⟩
  exact assocGet_assocSet_self _ _ _

theorem assocSet_of_not_mem {α β : Type} [DecidableEq α] (l : List (α × β)) (k : α) (v : β)
    (h : k ∉ l.map Prod.fst) : assocSet l k v = l ++ [(k, v)] := by
  induction l with
  | nil => rfl
  | cons hd tl ih =>
    obtain ⟨k0, v0⟩ := hd
    have hk : k0 ≠ k := by
      intro e
      exact h (e ▸ List.mem_cons_self _ _)
    simp only [assocSet, if_neg hk, List.cons_append]
    rw [ih (fun e => h (List.mem_cons_of_mem _ e))]

theorem foldl_assocSet_append {α β : Type} [DecidableEq α] (l acc : List (α × β))
    (h : ((acc ++ l).map Prod.fst).Nodup) :
    l.foldl (fun a kv => assocSet a kv.1 kv.2) acc = acc ++ l := by
  induction l generalizing acc with
  | nil => simp
  | cons hd tl ih =>
    obtain ⟨k0, v0⟩ := hd
    have hnm : k0 ∉ acc.map Prod.fst := by
      rw [List.map_append, List.nodup_append] at h
      intro hmem
      exact h.2.2 hmem (by simp)
    have hstep : assocSet acc k0 v0 = acc ++ [(k0, v0)] := assocSet_of_not_mem _ _ _ hnm
    simp only [List.foldl_cons, hstep]
    have hre : (acc ++ [(k0, v0)]) ++ tl = acc ++ ((k0, v0) :: tl) := by
      simp
    rw [ih (acc ++ [(k0, v0)]) (by rw [hre]; exact h), hre]

/-- C6: getFullBackup, run once the provider is ready, returns the
versioned backup object with version 2, type "full", and a values map that
agrees with the provider's current key-value mirror on every key. -/
theorem c6_getFullBackup (st : SMState) (hr : st.ready = true)
    (hnd : (st.provider.map Prod.fst).Nodup) :
    (getFullBackup st).version = 2 ∧
    (getFullBackup st).type = "full" ∧
    ∀ k, assocGet (getFullBackup st).values k = assocGet st.provider k := by
  refine ⟨rfl, rfl, ?_⟩
  intro k
  have hv : (getFullBackup st).values = st.provider := by
    unfold getFullBackup
    simpa using foldl_assocSet_append st.provider [] (by simpa using hnd)
  rw [hv]

/-- C6 witness: the backup of the ready example state has version 2, type
"full", and agrees with the provider on its keys. -/
theorem c6_getFullBackup_witness :
    (getFullBackup exState).version = 2 ∧
    (getFullBackup exState).type = "full" ∧
    assocGet (getFullBackup exState).values "p:1:x" = assocGet exState.provider "p:1:x" := by
  have h := c6_getFullBackup exState rfl (by decide)
  exact ⟨h.1, h.2.1, h.2.2 "p:1:x"⟩

theorem clear_tracked (ts : TimerSys) (h : Nat)
    (hall : ∀ e ∈ ts.pending, ts.updateTimer = some e.1)
    (hu : ts.updateTimer = some h) : ts.pending.filter (fun e => e.1 != h) = [] := by
  rw [List.filter_eq_nil_iff]
  intro e he
  have h2 := hall e he
  rw [hu] at h2
  injection h2 with h3
  subst h3
  simp

theorem scheduleUpdates_eq (ts : TimerSys) (hinv : OneTimerInv ts) :
    scheduleUpdates ts =
      { updateTimer := some ts.nextHandle,
        pending := [(ts.nextHandle, 5000)],
        nextHandle := ts.nextHandle + 1 } := by
  obtain ⟨hlen, hall⟩ := hinv
  cases hu : ts.updateTimer with
  | none =>
    have hp : ts.pending = [] := by
      cases hp : ts.pending with
      | nil => rfl
      | cons e rest =>
        exfalso
        have h2 := hall e (by rw [hp]; exact List.mem_cons_self _ _)
        rw [hu] at h2
        cases h2
    simp [scheduleUpdates, hu, setTimeoutSys, hp]
  | some h =>
    have hp : ts.pending.filter (fun e => e.1 != h) = [] := clear_tracked ts h hall hu
    simp [scheduleUpdates, hu, setTimeoutSys, clearTimeoutSys, hp]

theorem checkUpdatesSweep_eq (profiles : List Profile) (result : Profile → Bool) :
    checkUpdatesSweep profiles result =
      (profiles.filter (fun p => p.data.url.isSome)).map result := by
  unfold checkUpdatesSweep
  suffices h : ∀ acc, profiles.foldl
      (fun acc p => if p.data.url.isSome then acc ++ [result p] else acc) acc =
      acc ++ (profiles.filter (fun p => p.data.url.isSome)).map result by
    simpa using h []
  induction profiles with
  | nil => simp
  | cons p rest ih =>
    intro acc
    simp only [List.foldl_cons]
    by_cases hp : p.data.url.isSome = true
    · rw [if_pos hp, ih]
      simp [List.filter_cons, hp, List.append_assoc]
    · rw [if_neg hp, ih]
      simp [List.filter_cons, hp]

/-- C3 (amended): scheduleUpdates cancels any pending sweep timeout before
arming a fresh 5000 ms one, so at most one sweep timeout is ever
outstanding; firing the armed timeout runs checkUpdates, which performs no
timer operation, so no new timer is pending afterwards (the sweep does not
reschedule itself — only another scheduleUpdates call arms the next one);
and a sweep collects checkUpdate results exactly for the profiles with a
remote url and tallies the truthy ones. -/
theorem c3_updateSweep :
    (∀ ts : TimerSys, OneTimerInv ts →
      (scheduleUpdates ts).pending = [(ts.nextHandle, 5000)] ∧
      OneTimerInv (scheduleUpdates ts)) ∧
    (∀ (ts : TimerSys) (h : Nat), OneTimerInv ts → OneTimerInv (fireUpdateTimer ts h)) ∧
    (∀ ts : TimerSys, OneTimerInv ts →
      (fireUpdateTimer (scheduleUpdates ts) ts.nextHandle).pending = []) ∧
    (∀ (profiles : List Profile) (result : Profile → Bool),
      checkUpdatesSweep profiles result =
        (profiles.filter (fun p => p.data.url.isSome)).map result ∧
      checkUpdatesSuccess profiles result =
        ((profiles.filter (fun p => p.data.url.isSome)).map result).count true) := by
  refine ⟨?_, ?_, ?_, ?_⟩
  · intro ts hinv
    rw [scheduleUpdates_eq ts hinv]
    refine ⟨rfl, by simp, ?_⟩
    intro e he
    rw [List.mem_singleton] at he
    subst he
    rfl
  · intro ts h hinv
    obtain ⟨hlen, hall⟩ := hinv
    constructor
    · exact le_trans (List.length_filter_le _ _) hlen
    · intro e he
      exact hall e (List.mem_of_mem_filter he)
  · intro ts hinv
    rw [scheduleUpdates_eq ts hinv]
    simp [fireUpdateTimer]
  · intro profiles result
    refine ⟨checkUpdatesSweep_eq profiles result, ?_⟩
    rw [checkUpdatesSuccess, checkUpdatesSweep_eq]

/-- C3 witness: from an idle timer state, scheduleUpdates arms exactly one
5000 ms timeout, and once it fires (running the sweep) nothing is pending. -/
theorem c3_updateSweep_witness :
    (scheduleUpdates { updateTimer := none, pending := [], nextHandle := 1 }).pending =
      [(1, 5000)] ∧
    (fireUpdateTimer
      (scheduleUpdates { updateTimer := none, pending := [], nextHandle := 1 }) 1).pending =
      [] := by
  have hinv : OneTimerInv { updateTimer := none, pending := [], nextHandle := 1 } := by
    constructor
    · simp
    · intro e he
      cases he
  exact ⟨(c3_updateSweep.1 _ hinv).1, c3_updateSweep.2.2.1 _ hinv⟩

/-- C3 counterexample: arm the sweep timer and let it fire — checkUpdates
runs without touching any timer, so afterwards no timeout is pending at
all: contrary to the claim, no new 5-second timer for a next sweep exists
after checkUpdates() runs. -/
theorem c3_cex :
    (fireUpdateTimer
      (scheduleUpdates { updateTimer := none, pending := [], nextHandle := 1 }) 1).pending =
      [] := by
  rfl

theorem breakAtColon_append (a b : List Char) (h : ':' ∉ a) :
    breakAtColon (a ++ ':' :: b) = some (a, b) := by
  induction a with
  | nil => simp [breakAtColon]
  | cons c rest ih =>
    have hc : c ≠ ':' := fun e => h (e ▸ List.mem_cons_self _ _)
    simp only [List.cons_append, breakAtColon, if_neg hc, List.append_eq]
    rw [ih (fun e => h (List.mem_cons_of_mem _ e))]

/-- C7: _onProviderChange dispatches a provider notification as follows:
the key "profiles" reloads the whole profile list; a key of the form
p:<id>:<subkey> whose id segment resolves to a live profile forwards a
scoped changed event with the subkey and value to that profile; and in
every other case — a key outside the scheme, a "p:"-prefixed key with no
second separator, or an id with no live profile — the notification is
dropped with no state change and no event. -/
theorem c7_onProviderChange (st : SMState) (v : SVal) (d : Bool) :
    (onProviderChange st "profiles" v d = PCAction.reload) ∧
    (∀ (key : String) (idChars subChars : List Char) (p : Profile),
      key.data = 'p' :: ':' :: (idChars ++ ':' :: subChars) →
      ':' ∉ idChars →
      findByIdStr st.profileIds (String.mk idChars) = some p →
      onProviderChange st key v d =
        PCAction.emitChanged p.tag (String.mk subChars) v d) ∧
    (∀ key : String, key ≠ "profiles" →
      (∀ rest : List Char, key.data ≠ 'p' :: ':' :: rest) →
      onProviderChange st key v d = PCAction.drop) ∧
    (∀ (key : String) (rest : List Char), key.data = 'p' :: ':' :: rest →
      breakAtColon rest = none →
      onProviderChange st key v d = PCAction.drop) ∧
    (∀ (key : String) (rest idChars subChars : List Char),
      key.data = 'p' :: ':' :: rest →
      breakAtColon rest = some (idChars, subChars) →
      findByIdStr st.profileIds (String.mk idChars) = none →
      onProviderChange st key v d = PCAction.drop) := by
  have hprof : "profiles".data = 'p' :: 'r' :: 'o' :: 'f' :: 'i' :: 'l' :: 'e' :: 's' :: [] := rfl
  have hnotp : ∀ key : String, ∀ rest : List Char,
      key.data = 'p' :: ':' :: rest → key ≠ "profiles" := by
    intro key rest hk e
    rw [e, hprof] at hk
    injection hk with h1 h2
    injection h2 with h3 h4
    exact absurd h3 (by decide)
  refine ⟨?_, ?_, ?_, ?_, ?_⟩
  · simp [onProviderChange]
  · intro key idChars subChars p hk hc hf
    have hkp : key ≠ "profiles" := hnotp key _ hk
    unfold onProviderChange
    rw [if_neg hkp, hk]
    simp [breakAtColon_append _ _ hc, hf]
  · intro key hkp hnp
    unfold onProviderChange
    rw [if_neg hkp]
    cases hd : key.data with
    | nil => rfl
    | cons c1 t1 =>
      cases t1 with
      | nil => rfl
      | cons c2 rest =>
        by_cases h1 : c1 = 'p'
        · by_cases h2 : c2 = ':'
          · exfalso
            exact hnp rest (by rw [hd, h1, h2])
          · simp [h2]
        · simp [h1]
  · intro key rest hk hb
    have hkp : key ≠ "profiles" := hnotp key _ hk
    unfold onProviderChange
    rw [if_neg hkp, hk]
    simp [hb]
  · intro key rest idChars subChars hk hb hf
    have hkp : key ≠ "profiles" := hnotp key _ hk
    unfold onProviderChange
    rw [if_neg hkp, hk]
    simp [hb, hf]

/-- C7 witness: in the example state, "profiles" reloads; "p:1:x" reaches
live profile 1 as a scoped changed event for subkey "x"; and the malformed
keys "other", "p:1" and the unknown id in "p:7:x" are all dropped. -/
theorem c7_onProviderChange_witness :
    onProviderChange exState "profiles" (SVal.num 1) false = PCAction.reload ∧
    onProviderChange exState "p:1:x" (SVal.num 1) false =
      PCAction.emitChanged 11 "x" (SVal.num 1) false ∧
    onProviderChange exState "other" (SVal.num 1) false = PCAction.drop ∧
    onProviderChange exState "p:1" (SVal.num 1) false = PCAction.drop ∧
    onProviderChange exState "p:7:x" (SVal.num 1) false = PCAction.drop := by
  have h := c7_onProviderChange exState (SVal.num 1) false
  refine ⟨h.1, ?_, ?_, ?_, ?_⟩
  · have h2 := h.2.1 "p:1:x" ['1'] ['x'] exSecond (by decide) (by decide) (by decide)
    rw [h2]
    rfl
  · exact h.2.2.1 "other" (by decide) (by intro rest he; rw [show "other".data = 'o' :: 't' :: 'h' :: 'e' :: 'r' :: [] from rfl] at he; cases he)
  · exact h.2.2.2.1 "p:1" ('1' :: []) (by decide) (by decide)
  · exact h.2.2.2.2 "p:7:x" ('7' :: ':' :: 'x' :: []) ['7'] ['x'] (by decide) (by decide) (by decide)

theorem patchContext_id (pd : ProfileData)
    (h : ∀ b, pd.context ≠ some (CtxData.legacy b)) : patchContext pd = pd := by
  unfold patchContext
  cases hc : pd.context with
  | none => rfl
  | some c =>
    cases c with
    | legacy b => exact absurd hc (h b)
    | rules code => rfl

theorem jsIndexOf_append_cons (pre post : List Profile) (p : Profile) (hnp : p ∉ pre) :
    jsIndexOf (pre ++ p :: post) p = (pre.length : Int) := by
  induction pre with
  | nil => simp [jsIndexOf]
  | cons q rest ih =>
    have hq : q ≠ p := fun e => hnp (e ▸ List.mem_cons_self _ _)
    have ihr := ih (fun e => hnp (List.mem_cons_of_mem _ e))
    simp only [List.cons_append, jsIndexOf, if_neg hq, List.append_eq, ihr]
    have hne : ((rest.length : Int)) ≠ -1 := by omega
    rw [if_neg hne]
    simp only [List.length_cons]
    omega

theorem loadStep_reuse (full : List Profile) (idMap : List (Nat × Option Profile))
    (pre post : List Profile) (p : Profile) (acc : LoadAcc)
    (hfull : full = pre ++ p :: post)
    (hp : acc.profiles = pre)
    (hnp : p ∉ pre)
    (hlook : lookupLive idMap p.data.id = some p)
    (hpatch : patchContext p.data = p.data) :
    loadStep full idMap acc p.data =
      { acc with
        profiles := pre ++ [p],
        profileIds := assocSet acc.profileIds p.data.id (some p),
        oldIds := acc.oldIds.erase p.data.id } := by
  have hslot : jsIndexOf full p = (pre.length : Int) := by
    rw [hfull]
    exact jsIndexOf_append_cons pre post p hnp
  have hde : deep_equals p.data p.data = true := by
    simp [deep_equals]
  simp [loadStep, hlook, hpatch, hslot, hp, hde]

theorem loadLoop_reuse (full : List Profile) (idMap : List (Nat × Option Profile))
    (hids : ∀ p ∈ full, lookupLive idMap p.data.id = some p)
    (hnd : (full.map (fun p => p.data.id)).Nodup) :
    ∀ (post pre : List Profile) (acc : LoadAcc), full = pre ++ post →
      (∀ p ∈ full, patchContext p.data = p.data) →
      acc.profiles = pre →
      acc.oldIds = post.map (fun p => p.data.id) →
      acc.changed = false → acc.reordered = false →
      acc.newIds = [] → acc.changedIds = [] →
      ((post.map Profile.data).foldl (loadStep full idMap) acc).profiles = full ∧
      ((post.map Profile.data).foldl (loadStep full idMap) acc).oldIds = [] ∧
      ((post.map Profile.data).foldl (loadStep full idMap) acc).changed = false ∧
      ((post.map Profile.data).foldl (loadStep full idMap) acc).reordered = false ∧
      ((post.map Profile.data).foldl (loadStep full idMap) acc).newIds = [] ∧
      ((post.map Profile.data).foldl (loadStep full idMap) acc).changedIds = [] ∧
      ((post.map Profile.data).foldl (loadStep full idMap) acc).nextTag = acc.nextTag := by
  intro post
  induction post with
  | nil =>
    intro pre acc hfull hctx hp ho hc hr hn hcid
    simp only [List.map_nil, List.foldl_nil]
    refine ⟨?_, ho, hc, hr, hn, hcid, trivial⟩
    rw [hp, hfull, List.append_nil]
  | cons p rest ih =>
    intro pre acc hfull hctx hp ho hc hr hn hcid
    have hmem : p ∈ full := by
      rw [hfull]
      exact List.mem_append_right _ (List.mem_cons_self _ _)
    have hnp : p ∉ pre := by
      intro hin
      have h1 : p.data.id ∈ pre.map (fun q => q.data.id) :=
        List.mem_map_of_mem _ hin
      have h2 : p.data.id ∈ (p :: rest).map (fun q => q.data.id) := by
        simp
      have hnd2 := hnd
      rw [hfull, List.map_append, List.nodup_append] at hnd2
      exact hnd2.2.2 h1 h2
    have hstep := loadStep_reuse full idMap pre rest p acc hfull hp hnp
      (hids p hmem) (hctx p hmem)
    rw [List.map_cons, List.foldl_cons, hstep]
    have happ : full = (pre ++ [p]) ++ rest := by
      rw [hfull]
      simp
    have hoe : (acc.oldIds.erase p.data.id) = rest.map (fun q => q.data.id) := by
      rw [ho, List.map_cons, List.erase_cons_head]
    exact ih (pre ++ [p]) _ happ hctx (by simp [hp]) hoe hc hr hn hcid

/-- C2 (amended): for every state in which the in-memory profile instances
and their data are deep-equal, in the same order, to the persisted
profile-data list, and no persisted entry carries a legacy (non-array)
context object, calling loadProfiles() with suppress_events falsy emits no
profile-created, profile-changed or profiles-reordered event, calls
selectProfiles() on no context, and leaves every existing profile instance
(listeners included) in place.  The legacy-format exclusion is forced by
the monkey patch at the top of the loop: a legacy entry is normalized
before the deep-equality test, so it counts as changed even when it is
stored verbatim. -/
theorem c2_loadProfiles_stable (st : SMState)
    (hraw : assocGet st.provider "profiles" =
      some (SVal.profList (st.profiles.map Profile.data)))
    (hids : ∀ p ∈ st.profiles, lookupLive st.profileIds p.data.id = some p)
    (hnd : (st.profiles.map (fun p => p.data.id)).Nodup)
    (hctx : ∀ p ∈ st.profiles, ∀ b, p.data.context ≠ some (CtxData.legacy b)) :
    ∃ st' : SMState, loadProfiles st false = some (st', []) ∧
      st'.profiles = st.profiles ∧
      st'.contexts = st.contexts ∧
      st'.provider = st.provider := by
  have hctx2 : ∀ p ∈ st.profiles, patchContext p.data = p.data :=
    fun p hp => patchContext_id p.data (hctx p hp)
  have hloop := loadLoop_reuse st.profiles st.profileIds hids hnd st.profiles []
    { profiles := [],
      profileIds := [],
      oldIds := (st.profiles.map (fun p => p.data.id)).dedup,
      newIds := [],
      changedIds := [],
      reordered := false,
      changed := false,
      nextTag := st.nextTag }
    (by simp) hctx2 rfl (by simp [List.Nodup.dedup hnd]) rfl rfl rfl rfl
  obtain ⟨h1, h2, h3, h4, h5, h6, h7⟩ := hloop
  simp only [loadProfiles, rawProfilesOf, hraw, h2, h3]
  exact ⟨_, rfl, h1, rfl, rfl⟩

/-- C2 witness: in the matching example state, loadProfiles(false) fires no
event and keeps the profile instances in place. -/
theorem c2_loadProfiles_stable_witness :
    (loadProfiles exState false).map Prod.snd = some [] ∧
    (loadProfiles exState false).map (fun r => r.1.profiles) = some exState.profiles := by
  obtain ⟨st', h1, h2, h3, h4⟩ :=
    c2_loadProfiles_stable exState (by decide) (by decide) (by decide) (by decide)
  simp [h1, h2]

/-- C2 counterexample: in `exLegacyState` the in-memory instance and its
data (id 1, legacy moderator context) are deep-equal, in the same order,
to the persisted list; yet loadProfiles(false) emits :profile-changed and
replaces the instance, because the monkey patch rewrites the legacy
context to the Moderation condition before the deep-equality test. -/
theorem c2_cex :
    exLegacyState.profiles.map Profile.data = [exLegacy.data] ∧
    assocGet exLegacyState.provider "profiles" =
      some (SVal.profList (exLegacyState.profiles.map Profile.data)) ∧
    (loadProfiles exLegacyState false).map Prod.snd =
      some [SMEvent.profileChanged 31] ∧
    (loadProfiles exLegacyState false).map
      (fun r => decide (r.1.profiles = exLegacyState.profiles)) = some false := by
  refine ⟨rfl, by decide, by decide, by decide⟩

/-- C10: when the provider has no persisted "profiles" key, loadProfiles
on a fresh manager (no instances yet) falls back to the built-in two-entry
default list — the Moderation profile followed by the Default profile with
the reserved id 0, in that order — so a fresh installation starts with
exactly these two profiles, Moderation at higher priority. -/
theorem c10_loadProfiles_defaults (st : SMState)
    (hp : assocGet st.provider "profiles" = none)
    (hprofiles : st.profiles = [])
    (hmap : st.profileIds = []) :
    (loadProfiles st true).map (fun r => r.1.profiles.map Profile.data) =
      some [SettingsProfile.Moderation, SettingsProfile.Default] ∧
    (loadProfiles st true).map Prod.snd = some [] ∧
    SettingsProfile.Default.id = 0 := by
  simp only [loadProfiles, rawProfilesOf, hp, hprofiles, hmap]
  refine ⟨?_, ?_, rfl⟩ <;> rfl

/-- C10 witness: a fresh-install state loads exactly the Moderation and
Default profiles, in that order. -/
theorem c10_loadProfiles_defaults_witness :
    (loadProfiles exFreshState true).map (fun r => r.1.profiles.map Profile.data) =
      some [SettingsProfile.Moderation, SettingsProfile.Default] ∧
    SettingsProfile.Default.id = 0 := by
  have h := c10_loadProfiles_defaults exFreshState rfl rfl rfl
  exact ⟨h.1, h.2.2⟩

end FFZ
